import Mathlib

/-!
Verification of the projectionkit optimistic-concurrency version store.

The development shallowly embeds the sqlprojection PostgreSQL driver
(CreateSchema's projection.occ table, StoreVersion, UpdateVersion,
QueryVersion, isDup) and the dynamoprojection option plumbing
(options.go).  The occ table is modelled as an association list of
rows ((handler, resource), version); the PRIMARY KEY (handler, resource)
constraint is the predicate PK.  Version tokens are opaque byte strings,
modelled as lists of naturals; a Go nil or empty slice is the empty list.
Statement errors from the database layer are modelled by an optional
fault argument: none means the statement executes against the modelled
table, some e means the driver call returns error e.
-/

namespace sqlprojection

/-- Version tokens are opaque byte strings; bytes are modelled as naturals.
The empty list is the empty token (Go nil or zero-length slice). -/
abbrev Version := List Nat

/-- The projection.occ table: rows of ((handler, resource), version). -/
abbrev Db := List ((String × Version) × Version)

/-- Errors surfaced through Go's error interface, as inspected by isDup:
a lib/pq error carrying a code, a pgconn.PgError carrying a code, or any
other error. -/
inductive GoErr where
  | pqErr (code : String)
  | pgconnErr (code : String)
  | other (msg : String)
deriving DecidableEq

/-- pgerrcode.UniqueViolation. -/
def uniqueViolation : String := "23505"

/-- The PRIMARY KEY (handler, resource) constraint of projection.occ:
no two rows share a key. -/
abbrev PK (db : Db) : Prop := (db.map Prod.fst).Nodup

/-- SELECT version FROM projection.occ WHERE handler = h AND resource = r:
the version of the first row keyed by (h, r), if any. -/
def occLookup : Db → String → Version → Option Version
  | [], _, _ => none
  | row :: rest, h, r =>
    if row.1 = (h, r) then some row.2 else occLookup rest h r

/-- The plain INSERT issued by UpdateVersion when current is empty: adds a
row unless the key already exists, in which case the engine raises a
unique-violation error (surfaced as a pgconn.PgError). -/
def execInsert (db : Db) (h : String) (r v : Version) : Db × Option GoErr :=
  match occLookup db h r with
  | some _ => (db, some (GoErr.pgconnErr uniqueViolation))
  | none => (((h, r), v) :: db, none)

/-- UPDATE projection.occ SET version = n WHERE handler = h AND
resource = r AND version = c: rewrites every matching row and counts the
rows affected. -/
def execUpdate : Db → String → Version → Version → Version → Db × Nat
  | [], _, _, _, _ => ([], 0)
  | row :: rest, h, r, c, n =>
    let p := execUpdate rest h r c n
    if row.1 = (h, r) ∧ row.2 = c then (((h, r), n) :: p.1, p.2 + 1)
    else (row :: p.1, p.2)

/-- DELETE FROM projection.occ WHERE handler = h AND resource = r AND
version = c: removes every matching row and counts the rows affected. -/
def execDelete : Db → String → Version → Version → Db × Nat
  | [], _, _, _ => ([], 0)
  | row :: rest, h, r, c =>
    let p := execDelete rest h r c
    if row.1 = (h, r) ∧ row.2 = c then (p.1, p.2 + 1)
    else (row :: p.1, p.2)

/-- Result of postgresDriver.UpdateVersion: the table after the call, the
applied flag, and the returned Go error (none is Go's nil). -/
structure CasResult where
  db : Db
  applied : Bool
  err : Option GoErr
deriving DecidableEq

/-- postgresDriver.isDup: an error counts as a duplicate-key error exactly
when it is a pq or pgconn error whose code is pgerrcode.UniqueViolation. -/
def postgresDriver.isDup : Option GoErr → Bool
  | some (GoErr.pqErr code) => code = uniqueViolation
  | some (GoErr.pgconnErr code) => code = uniqueViolation
  | _ => false

/-- postgresDriver.StoreVersion: INSERT ... ON CONFLICT (handler, resource)
DO UPDATE SET version = excluded.version, an unconditional upsert used for
administrative force-set of a version. -/
def postgresDriver.StoreVersion : Db → String → Version → Version → Db
  | [], h, r, v => [((h, r), v)]
  | row :: rest, h, r, v =>
    if row.1 = (h, r) then ((h, r), v) :: rest
    else row :: postgresDriver.StoreVersion rest h r v

/-- postgresDriver.UpdateVersion, the compare-and-swap.  If current is
empty, a plain INSERT is attempted; a duplicate-key failure (isDup) is
reported as (false, nil), any other outcome as (true, err).  Otherwise a
DELETE (when next is empty) or an UPDATE keyed on the stored version
runs; a statement error is returned as (false, err) and otherwise applied
reflects whether any row was affected.  The fault argument injects a
statement error: some e makes the executed statement fail with e. -/
def postgresDriver.UpdateVersion (fault : Option GoErr) (db : Db)
    (h : String) (r c n : Version) : CasResult :=
  if c.length = 0 then
    let ins : Db × Option GoErr :=
      match fault with
      | some e => (db, some e)
      | none => execInsert db h r n
    if postgresDriver.isDup ins.2 then ⟨db, false, none⟩
    else ⟨ins.1, true, ins.2⟩
  else
    match fault with
    | some e => ⟨db, false, some e⟩
    | none =>
      if n.length = 0 then
        let p := execDelete db h r c
        ⟨p.1, p.2 != 0, none⟩
      else
        let p := execUpdate db h r c n
        ⟨p.1, p.2 != 0, none⟩

/-- postgresDriver.QueryVersion: SELECT the stored version; when the row
does not exist, sql.ErrNoRows is translated into (nil, nil), that is the
empty token with no error. -/
def postgresDriver.QueryVersion (db : Db) (h : String) (r : Version) :
    Version × Option GoErr :=
  match occLookup db h r with
  | some v => (v, none)
  | none => ([], none)

end sqlprojection

namespace dynamoprojection

/-- The decorators struct of dynamoprojection/options.go.  Each field
holds the registered decorator callback for one DynamoDB operation, or
none when no decorator is registered (a Go nil function field).  The
callback types are opaque parameters. -/
structure decorators (α β γ δ ε ζ : Type) where
  decorateGetItem : Option α
  decoratePutItem : Option β
  decorateDeleteItem : Option γ
  decorateTransactWriteItems : Option δ
  decorateCreateTableItem : Option ε
  decorateDeleteTableItem : Option ζ
deriving DecidableEq

/-- The options struct: one optional mutation of the decorators struct per
option interface.  A Go nil function field is none; a Go func value is
some f where f is the in-place mutation it performs. -/
structure options (α β γ δ ε ζ : Type) where
  applyOptionToAdaptorFunc : Option (decorators α β γ δ ε ζ → decorators α β γ δ ε ζ)
  applyResourceRepositoryOptionFunc : Option (decorators α β γ δ ε ζ → decorators α β γ δ ε ζ)
  applyTableOptionFunc : Option (decorators α β γ δ ε ζ → decorators α β γ δ ε ζ)

variable {α β γ δ ε ζ : Type}

/-- options.applyOptionToAdaptor: runs applyOptionToAdaptorFunc when it is
non-nil, otherwise leaves the decorators untouched. -/
def options.applyOptionToAdaptor (o : options α β γ δ ε ζ)
    (d : decorators α β γ δ ε ζ) : decorators α β γ δ ε ζ :=
  match o.applyOptionToAdaptorFunc with
  | some f => f d
  | none => d

/-- options.applyResourceRepositoryOption: runs
applyResourceRepositoryOptionFunc when it is non-nil. -/
def options.applyResourceRepositoryOption (o : options α β γ δ ε ζ)
    (d : decorators α β γ δ ε ζ) : decorators α β γ δ ε ζ :=
  match o.applyResourceRepositoryOptionFunc with
  | some f => f d
  | none => d

/-- options.applyTableOption: runs applyTableOptionFunc when it is
non-nil. -/
def options.applyTableOption (o : options α β γ δ ε ζ)
    (d : decorators α β γ δ ε ζ) : decorators α β γ δ ε ζ :=
  match o.applyTableOptionFunc with
  | some f => f d
  | none => d

/-- WithDecorateGetItem: the HandlerOption path is an explicit no-op
func, the ResourceRepositoryOption path stores the decorator in
decorateGetItem, and no table option func is set. -/
def WithDecorateGetItem (dec : α) : options α β γ δ ε ζ where
  applyOptionToAdaptorFunc := some (fun d => d)
  applyResourceRepositoryOptionFunc :=
    some (fun d => { d with decorateGetItem := some dec })
  applyTableOptionFunc := none

/-- WithDecoratePutItem: no-op HandlerOption path; the
ResourceRepositoryOption path stores the decorator in decoratePutItem. -/
def WithDecoratePutItem (dec : β) : options α β γ δ ε ζ where
  applyOptionToAdaptorFunc := some (fun d => d)
  applyResourceRepositoryOptionFunc :=
    some (fun d => { d with decoratePutItem := some dec })
  applyTableOptionFunc := none

/-- WithDecorateDeleteItem: no-op HandlerOption path; the
ResourceRepositoryOption path stores the decorator in
decorateDeleteItem. -/
def WithDecorateDeleteItem (dec : γ) : options α β γ δ ε ζ where
  applyOptionToAdaptorFunc := some (fun d => d)
  applyResourceRepositoryOptionFunc :=
    some (fun d => { d with decorateDeleteItem := some dec })
  applyTableOptionFunc := none

/-- WithDecorateTransactWriteItems: no-op HandlerOption path; the
ResourceRepositoryOption path stores the decorator in
decorateTransactWriteItems. -/
def WithDecorateTransactWriteItems (dec : δ) : options α β γ δ ε ζ where
  applyOptionToAdaptorFunc := some (fun d => d)
  applyResourceRepositoryOptionFunc :=
    some (fun d => { d with decorateTransactWriteItems := some dec })
  applyTableOptionFunc := none

/-- WithDecorateCreateTable: only the TableOption path is set; it stores
the decorator in decorateCreateTableItem. -/
def WithDecorateCreateTable (dec : ε) : options α β γ δ ε ζ where
  applyOptionToAdaptorFunc := none
  applyResourceRepositoryOptionFunc := none
  applyTableOptionFunc :=
    some (fun d => { d with decorateCreateTableItem := some dec })

/-- WithDecorateDeleteTable: only the TableOption path is set; it stores
the decorator in decorateDeleteTableItem. -/
def WithDecorateDeleteTable (dec : ζ) : options α β γ δ ε ζ where
  applyOptionToAdaptorFunc := none
  applyResourceRepositoryOptionFunc := none
  applyTableOptionFunc :=
    some (fun d => { d with decorateDeleteTableItem := some dec })

/-- An empty decorators value over Nat callback types, used to evaluate
the option plumbing at a concrete input. -/
def emptyDecorators : decorators Nat Nat Nat Nat Nat Nat :=
  ⟨none, none, none, none, none, none⟩

/-- An options value whose HandlerOption function field is nil, used to
evaluate the nil-field no-op behaviour at a concrete input. -/
def nilAdaptorOptions : options Nat Nat Nat Nat Nat Nat :=
  ⟨none, none, none⟩

end dynamoprojection

namespace sqlprojection

/-- A key absent from the table is not found by occLookup. -/
theorem occLookup_eq_none (db : Db) (h : String) (r : Version)
    (hnm : (h, r) ∉ db.map Prod.fst) : occLookup db h r = none := by
  induction db with
  | nil => rfl
  | cons row rest ih =>
    obtain ⟨k, v⟩ := row
    simp only [List.map_cons, List.mem_cons, not_or] at hnm
    obtain ⟨h1, h2⟩ := hnm
    have h1' : k ≠ (h, r) := fun hk => h1 hk.symm
    simp [occLookup, h1', ih h2]

/-- Under the primary-key constraint, every row keyed by (h, r) carries
the version occLookup finds. -/
theorem occLookup_unique (db : Db) (h : String) (r u : Version)
    (hpk : PK db) (hl : occLookup db h r = some u) :
    ∀ w, ((h, r), w) ∈ db → w = u := by
  induction db with
  | nil => intro w hw; cases hw
  | cons row rest ih =>
    obtain ⟨k, v⟩ := row
    simp only [PK, List.map_cons, List.nodup_cons] at hpk
    obtain ⟨hnotin, hpk'⟩ := hpk
    intro w hw
    by_cases hk : k = (h, r)
    · subst hk
      simp [occLookup] at hl
      rcases List.mem_cons.mp hw with heq | hmem
      · simp only [Prod.mk.injEq] at heq
        exact heq.2.trans hl
      · exact absurd (List.mem_map_of_mem Prod.fst hmem) hnotin
    · simp only [occLookup, if_neg hk] at hl
      rcases List.mem_cons.mp hw with heq | hmem
      · simp only [Prod.mk.injEq] at heq
        exact absurd heq.1.symm hk
      · exact ih hpk' hl w hmem

/-- An UPDATE whose version condition matches no row leaves the table
unchanged and affects zero rows. -/
theorem execUpdate_no_match (db : Db) (h : String) (r c n : Version)
    (hnm : ∀ v, ((h, r), v) ∈ db → v ≠ c) :
    execUpdate db h r c n = (db, 0) := by
  induction db with
  | nil => rfl
  | cons row rest ih =>
    obtain ⟨k, v⟩ := row
    have hcond : ¬(k = (h, r) ∧ v = c) := by
      rintro ⟨rfl, rfl⟩
      exact hnm v (List.mem_cons_self _ _) rfl
    have hrest : ∀ w, ((h, r), w) ∈ rest → w ≠ c :=
      fun w hw => hnm w (List.mem_cons_of_mem _ hw)
    simp [execUpdate, hcond, ih hrest]

/-- A DELETE whose version condition matches no row leaves the table
unchanged and affects zero rows. -/
theorem execDelete_no_match (db : Db) (h : String) (r c : Version)
    (hnm : ∀ v, ((h, r), v) ∈ db → v ≠ c) :
    execDelete db h r c = (db, 0) := by
  induction db with
  | nil => rfl
  | cons row rest ih =>
    obtain ⟨k, v⟩ := row
    have hcond : ¬(k = (h, r) ∧ v = c) := by
      rintro ⟨rfl, rfl⟩
      exact hnm v (List.mem_cons_self _ _) rfl
    have hrest : ∀ w, ((h, r), w) ∈ rest → w ≠ c :=
      fun w hw => hnm w (List.mem_cons_of_mem _ hw)
    simp [execDelete, hcond, ih hrest]

/-- A key absent from the table admits no matching row. -/
theorem no_match_of_not_mem (db : Db) (h : String) (r c : Version)
    (hnm : (h, r) ∉ db.map Prod.fst) :
    ∀ v, ((h, r), v) ∈ db → v ≠ c :=
  fun _ hv => absurd (List.mem_map_of_mem Prod.fst hv) hnm

/-- Under the primary-key constraint, the UPDATE affects one row when the
stored version matches the condition and zero rows otherwise. -/
theorem execUpdate_count (db : Db) (h : String) (r c n : Version)
    (hpk : PK db) :
    (execUpdate db h r c n).2 = if occLookup db h r = some c then 1 else 0 := by
  induction db with
  | nil => simp [execUpdate, occLookup]
  | cons row rest ih =>
    obtain ⟨k, v⟩ := row
    simp only [PK, List.map_cons, List.nodup_cons] at hpk
    obtain ⟨hnotin, hpk'⟩ := hpk
    by_cases hk : k = (h, r)
    · subst hk
      have hno := no_match_of_not_mem rest h r c hnotin
      by_cases hv : v = c
      · subst hv
        simp [execUpdate, occLookup, execUpdate_no_match rest h r v n hno]
      · simp [execUpdate, occLookup, hv, execUpdate_no_match rest h r c n hno]
    · simp [execUpdate, occLookup, hk, ih hpk']

/-- Under the primary-key constraint, the UPDATE rewrites the stored
version to n exactly when the condition matched. -/
theorem execUpdate_lookup (db : Db) (h : String) (r c n : Version)
    (hpk : PK db) :
    occLookup (execUpdate db h r c n).1 h r =
      if occLookup db h r = some c then some n else occLookup db h r := by
  induction db with
  | nil => simp [execUpdate, occLookup]
  | cons row rest ih =>
    obtain ⟨k, v⟩ := row
    simp only [PK, List.map_cons, List.nodup_cons] at hpk
    obtain ⟨hnotin, hpk'⟩ := hpk
    by_cases hk : k = (h, r)
    · subst hk
      have hno := no_match_of_not_mem rest h r c hnotin
      by_cases hv : v = c
      · subst hv
        simp [execUpdate, occLookup, execUpdate_no_match rest h r v n hno]
      · simp [execUpdate, occLookup, hv, execUpdate_no_match rest h r c n hno]
    · simp [execUpdate, occLookup, hk, ih hpk']

/-- Executing the UPDATE does not disturb rows under any other key. -/
theorem execUpdate_frame (db : Db) (h : String) (r c n : Version)
    (h2 : String) (r2 : Version) (hne : (h2, r2) ≠ (h, r)) :
    occLookup (execUpdate db h r c n).1 h2 r2 = occLookup db h2 r2 := by
  induction db with
  | nil => rfl
  | cons row rest ih =>
    obtain ⟨k, v⟩ := row
    by_cases hc : k = (h, r) ∧ v = c
    · obtain ⟨rfl, rfl⟩ := hc
      have hne' : ((h, r) : String × Version) ≠ (h2, r2) := fun hh => hne hh.symm
      simp [execUpdate, occLookup, hne', ih]
    · by_cases hk2 : k = (h2, r2)
      · subst hk2
        have hptr : ¬(h2 = h ∧ r2 = r) := by
          rintro ⟨rfl, rfl⟩
          exact hne rfl
        simp [execUpdate, occLookup, hptr]
      · simp [execUpdate, occLookup, hc, hk2, ih]

/-- When the stored version under (h, r) is not c, the UPDATE leaves the
version observed under (h, r) unchanged, with no primary-key hypothesis. -/
theorem execUpdate_lookup_ne (db : Db) (h : String) (r c n : Version)
    (hne : occLookup db h r ≠ some c) :
    occLookup (execUpdate db h r c n).1 h r = occLookup db h r := by
  induction db with
  | nil => rfl
  | cons row rest ih =>
    obtain ⟨k, v⟩ := row
    by_cases hk : k = (h, r)
    · subst hk
      have hv : ¬ v = c := by
        intro hvc
        exact hne (by simp [occLookup, hvc])
      simp [execUpdate, occLookup, hv]
    · have hne' : occLookup rest h r ≠ some c := by
        simpa [occLookup, hk] using hne
      simp [execUpdate, occLookup, hk, ih hne']

/-- Under the primary-key constraint, the DELETE affects one row when the
stored version matches the condition and zero rows otherwise. -/
theorem execDelete_count (db : Db) (h : String) (r c : Version)
    (hpk : PK db) :
    (execDelete db h r c).2 = if occLookup db h r = some c then 1 else 0 := by
  induction db with
  | nil => simp [execDelete, occLookup]
  | cons row rest ih =>
    obtain ⟨k, v⟩ := row
    simp only [PK, List.map_cons, List.nodup_cons] at hpk
    obtain ⟨hnotin, hpk'⟩ := hpk
    by_cases hk : k = (h, r)
    · subst hk
      have hno := no_match_of_not_mem rest h r c hnotin
      by_cases hv : v = c
      · subst hv
        simp [execDelete, occLookup, execDelete_no_match rest h r v hno]
      · simp [execDelete, occLookup, hv, execDelete_no_match rest h r c hno]
    · simp [execDelete, occLookup, hk, ih hpk']

/-- Under the primary-key constraint, the DELETE removes the row exactly
when the condition matched. -/
theorem execDelete_lookup (db : Db) (h : String) (r c : Version)
    (hpk : PK db) :
    occLookup (execDelete db h r c).1 h r =
      if occLookup db h r = some c then none else occLookup db h r := by
  induction db with
  | nil => simp [execDelete, occLookup]
  | cons row rest ih =>
    obtain ⟨k, v⟩ := row
    simp only [PK, List.map_cons, List.nodup_cons] at hpk
    obtain ⟨hnotin, hpk'⟩ := hpk
    by_cases hk : k = (h, r)
    · subst hk
      have hno := no_match_of_not_mem rest h r c hnotin
      by_cases hv : v = c
      · subst hv
        simp [execDelete, occLookup, execDelete_no_match rest h r v hno,
          occLookup_eq_none rest h r hnotin]
      · simp [execDelete, occLookup, hv, execDelete_no_match rest h r c hno]
    · simp [execDelete, occLookup, hk, ih hpk']

/-- Executing the DELETE does not disturb rows under any other key. -/
theorem execDelete_frame (db : Db) (h : String) (r c : Version)
    (h2 : String) (r2 : Version) (hne : (h2, r2) ≠ (h, r)) :
    occLookup (execDelete db h r c).1 h2 r2 = occLookup db h2 r2 := by
  induction db with
  | nil => rfl
  | cons row rest ih =>
    obtain ⟨k, v⟩ := row
    by_cases hc : k = (h, r) ∧ v = c
    · obtain ⟨rfl, rfl⟩ := hc
      have hne' : ((h, r) : String × Version) ≠ (h2, r2) := fun hh => hne hh.symm
      simp [execDelete, occLookup, hne', ih]
    · by_cases hk2 : k = (h2, r2)
      · subst hk2
        have hptr : ¬(h2 = h ∧ r2 = r) := by
          rintro ⟨rfl, rfl⟩
          exact hne rfl
        simp [execDelete, occLookup, hptr]
      · simp [execDelete, occLookup, hc, hk2, ih]

/-- When the stored version under (h, r) is not c, the DELETE leaves the
version observed under (h, r) unchanged, with no primary-key hypothesis. -/
theorem execDelete_lookup_ne (db : Db) (h : String) (r c : Version)
    (hne : occLookup db h r ≠ some c) :
    occLookup (execDelete db h r c).1 h r = occLookup db h r := by
  induction db with
  | nil => rfl
  | cons row rest ih =>
    obtain ⟨k, v⟩ := row
    by_cases hk : k = (h, r)
    · subst hk
      have hv : ¬ v = c := by
        intro hvc
        exact hne (by simp [occLookup, hvc])
      simp [execDelete, occLookup, hv]
    · have hne' : occLookup rest h r ≠ some c := by
        simpa [occLookup, hk] using hne
      simp [execDelete, occLookup, hk, ih hne']

end sqlprojection

namespace sqlprojection

/-- C1: a CompareAndSwap with an empty current token against a resource
that already has a version record turns the uniqueness violation raised
by the INSERT into applied = false with a nil error, never a propagated
error, and the stored table is unchanged; the same holds for an injected
statement error that isDup classifies as a unique violation. -/
theorem c1_empty_current_existing_record_conflict (db : Db) (h : String)
    (r n v : Version) :
    (occLookup db h r = some v →
      postgresDriver.UpdateVersion none db h r [] n =
        ⟨db, false, none⟩) ∧
    (∀ e : GoErr, postgresDriver.isDup (some e) = true →
      postgresDriver.UpdateVersion (some e) db h r [] n =
        ⟨db, false, none⟩) := by
  constructor
  · intro hl
    simp [postgresDriver.UpdateVersion, execInsert, hl, postgresDriver.isDup,
      uniqueViolation]
  · intro e he
    simp [postgresDriver.UpdateVersion, he]

/-- C1 witness at a concrete table, tokens, and injected error. -/
theorem c1_empty_current_existing_record_conflict_witness :
    postgresDriver.UpdateVersion none [(("h", [0]), [1])] "h" [0] [] [2] =
      ⟨[(("h", [0]), [1])], false, none⟩ ∧
    postgresDriver.UpdateVersion (some (GoErr.pgconnErr uniqueViolation))
      [] "h" [0] [] [2] = ⟨[], false, none⟩ :=
  ⟨(c1_empty_current_existing_record_conflict [(("h", [0]), [1])] "h" [0] [2] [1]).1
      (by decide),
   (c1_empty_current_existing_record_conflict [] "h" [0] [2] [1]).2
      (GoErr.pgconnErr uniqueViolation) (by decide)⟩

/-- C2: with both tokens non-empty, UpdateVersion returns a nil error,
reports applied exactly when a row was affected, which under the primary
key happens exactly when the stored version equals current, and rewrites
the stored version to next exactly in that case. -/
theorem c2_nonempty_cas_update (db : Db) (h : String) (r c n : Version)
    (hpk : PK db) (hc : c ≠ []) (hn : n ≠ []) :
    (postgresDriver.UpdateVersion none db h r c n).err = none ∧
    ((postgresDriver.UpdateVersion none db h r c n).applied = true ↔
      occLookup db h r = some c) ∧
    occLookup (postgresDriver.UpdateVersion none db h r c n).db h r =
      (if occLookup db h r = some c then some n else occLookup db h r) := by
  have hc0 : ¬ c.length = 0 := by simpa [List.length_eq_zero] using hc
  have hn0 : ¬ n.length = 0 := by simpa [List.length_eq_zero] using hn
  have ha : (postgresDriver.UpdateVersion none db h r c n).applied
      = ((execUpdate db h r c n).2 != 0) := by
    simp [postgresDriver.UpdateVersion, hc0, hn0]
  have hd : (postgresDriver.UpdateVersion none db h r c n).db
      = (execUpdate db h r c n).1 := by
    simp [postgresDriver.UpdateVersion, hc0, hn0]
  refine ⟨?_, ?_, ?_⟩
  · simp [postgresDriver.UpdateVersion, hc0, hn0]
  · rw [ha, execUpdate_count db h r c n hpk]
    by_cases hl : occLookup db h r = some c <;> simp [hl]
  · rw [hd, execUpdate_lookup db h r c n hpk]

/-- C2 witness at a concrete single-row table. -/
theorem c2_nonempty_cas_update_witness :
    (postgresDriver.UpdateVersion none [(("h", [0]), [1])] "h" [0] [1] [2]).err
      = none ∧
    ((postgresDriver.UpdateVersion none [(("h", [0]), [1])] "h" [0] [1] [2]).applied
        = true ↔
      occLookup [(("h", [0]), [1])] "h" [0] = some [1]) ∧
    occLookup
        (postgresDriver.UpdateVersion none [(("h", [0]), [1])] "h" [0] [1] [2]).db
        "h" [0] =
      (if occLookup [(("h", [0]), [1])] "h" [0] = some [1] then some [2]
        else occLookup [(("h", [0]), [1])] "h" [0]) :=
  c2_nonempty_cas_update [(("h", [0]), [1])] "h" [0] [1] [2]
    (by decide) (by decide) (by decide)

/-- C3: a CompareAndSwap with an empty current token against a resource
with no record inserts a row carrying next and returns applied = true
with a nil error. -/
theorem c3_first_insert (db : Db) (h : String) (r n : Version)
    (hl : occLookup db h r = none) :
    postgresDriver.UpdateVersion none db h r [] n =
      ⟨((h, r), n) :: db, true, none⟩ ∧
    occLookup (postgresDriver.UpdateVersion none db h r [] n).db h r = some n := by
  have h1 : postgresDriver.UpdateVersion none db h r [] n =
      ⟨((h, r), n) :: db, true, none⟩ := by
    simp [postgresDriver.UpdateVersion, execInsert, hl, postgresDriver.isDup]
  exact ⟨h1, by simp [h1, occLookup]⟩

/-- C3 witness: the first write against an empty table. -/
theorem c3_first_insert_witness :
    postgresDriver.UpdateVersion none [] "h" [0] [] [1] =
      ⟨[(("h", [0]), [1])], true, none⟩ ∧
    occLookup (postgresDriver.UpdateVersion none [] "h" [0] [] [1]).db "h" [0]
      = some [1] :=
  c3_first_insert [] "h" [0] [1] rfl

/-- C4: with non-empty current and empty next, UpdateVersion returns a
nil error, deletes the record exactly when the stored version equals
current, reports applied exactly in that case, and a subsequent
QueryVersion on the deleted resource returns the empty token with a nil
error. -/
theorem c4_delete_on_empty_next (db : Db) (h : String) (r c : Version)
    (hpk : PK db) (hc : c ≠ []) :
    (postgresDriver.UpdateVersion none db h r c []).err = none ∧
    ((postgresDriver.UpdateVersion none db h r c []).applied = true ↔
      occLookup db h r = some c) ∧
    occLookup (postgresDriver.UpdateVersion none db h r c []).db h r =
      (if occLookup db h r = some c then none else occLookup db h r) ∧
    (occLookup db h r = some c →
      postgresDriver.QueryVersion
        (postgresDriver.UpdateVersion none db h r c []).db h r = ([], none)) := by
  have hc0 : ¬ c.length = 0 := by simpa [List.length_eq_zero] using hc
  have ha : (postgresDriver.UpdateVersion none db h r c []).applied
      = ((execDelete db h r c).2 != 0) := by
    simp [postgresDriver.UpdateVersion, hc0]
  have hd : (postgresDriver.UpdateVersion none db h r c []).db
      = (execDelete db h r c).1 := by
    simp [postgresDriver.UpdateVersion, hc0]
  refine ⟨?_, ?_, ?_, ?_⟩
  · simp [postgresDriver.UpdateVersion, hc0]
  · rw [ha, execDelete_count db h r c hpk]
    by_cases hl : occLookup db h r = some c <;> simp [hl]
  · rw [hd, execDelete_lookup db h r c hpk]
  · intro hl
    have hdel := execDelete_lookup db h r c hpk
    rw [if_pos hl] at hdel
    rw [hd]
    simp [postgresDriver.QueryVersion, hdel]

/-- C4 witness: deleting the single stored record and querying it. -/
theorem c4_delete_on_empty_next_witness :
    (postgresDriver.UpdateVersion none [(("h", [0]), [1])] "h" [0] [1] []).err
      = none ∧
    ((postgresDriver.UpdateVersion none [(("h", [0]), [1])] "h" [0] [1] []).applied
        = true ↔
      occLookup [(("h", [0]), [1])] "h" [0] = some [1]) ∧
    occLookup
        (postgresDriver.UpdateVersion none [(("h", [0]), [1])] "h" [0] [1] []).db
        "h" [0] =
      (if occLookup [(("h", [0]), [1])] "h" [0] = some [1] then none
        else occLookup [(("h", [0]), [1])] "h" [0]) ∧
    (occLookup [(("h", [0]), [1])] "h" [0] = some [1] →
      postgresDriver.QueryVersion
        (postgresDriver.UpdateVersion none [(("h", [0]), [1])] "h" [0] [1] []).db
        "h" [0] = ([], none)) :=
  c4_delete_on_empty_next [(("h", [0]), [1])] "h" [0] [1] (by decide) (by decide)

/-- C5 counterexample: against a resource whose stored version already
equals next, a CompareAndSwap whose current token also equals next
matches the stored row, so the code reports applied = true, not
applied = false as the claim states (the table is still unchanged). -/
theorem c5_idempotence_counterexample :
    occLookup [(("h", [0]), [1])] "h" [0] = some [1] ∧
    (postgresDriver.UpdateVersion none [(("h", [0]), [1])] "h" [0] [1] [1]).applied
      = true ∧
    (postgresDriver.UpdateVersion none [(("h", [0]), [1])] "h" [0] [1] [1]).db
      = [(("h", [0]), [1])] := by
  decide

/-- C5 amended: against a resource whose stored version already equals
next, a second CompareAndSwap with the same pair whose current token
differs from next reports applied = false with a nil error and leaves
the table unchanged. -/
theorem c5_idempotent_redelivery (db : Db) (h : String) (r c n : Version)
    (hpk : PK db) (hl : occLookup db h r = some n) (hcn : c ≠ n) :
    postgresDriver.UpdateVersion none db h r c n = ⟨db, false, none⟩ := by
  have hno : ∀ w, ((h, r), w) ∈ db → w ≠ c := by
    intro w hw
    rw [occLookup_unique db h r n hpk hl w hw]
    exact fun hnc => hcn hnc.symm
  by_cases hc : c.length = 0
  · simp [postgresDriver.UpdateVersion, hc, execInsert, hl, postgresDriver.isDup]
  · by_cases hn : n.length = 0
    · simp [postgresDriver.UpdateVersion, hc, hn,
        execDelete_no_match db h r c hno]
    · simp [postgresDriver.UpdateVersion, hc, hn,
        execUpdate_no_match db h r c n hno]

/-- C5 witness: redelivering an event against a resource already at its
next version. -/
theorem c5_idempotent_redelivery_witness :
    postgresDriver.UpdateVersion none [(("h", [0]), [2])] "h" [0] [1] [2] =
      ⟨[(("h", [0]), [2])], false, none⟩ :=
  c5_idempotent_redelivery [(("h", [0]), [2])] "h" [0] [1] [2]
    (by decide) (by decide) (by decide)

/-- C6: after a successful CompareAndSwap with a non-empty next token,
QueryVersion returns exactly next with a nil error; and when no record
exists for the resource, QueryVersion returns the empty token with a nil
error rather than an error. -/
theorem c6_round_trip :
    (∀ (db : Db) (h : String) (r c n : Version), PK db → n ≠ [] →
      (postgresDriver.UpdateVersion none db h r c n).applied = true →
      postgresDriver.QueryVersion
        (postgresDriver.UpdateVersion none db h r c n).db h r = (n, none)) ∧
    (∀ (db : Db) (h : String) (r : Version), occLookup db h r = none →
      postgresDriver.QueryVersion db h r = ([], none)) := by
  constructor
  · intro db h r c n hpk hn happ
    have hn0 : ¬ n.length = 0 := by simpa [List.length_eq_zero] using hn
    by_cases hc : c.length = 0
    · cases hl : occLookup db h r with
      | some v =>
        exfalso
        rw [show postgresDriver.UpdateVersion none db h r c n
            = ⟨db, false, none⟩ from by
          simp [postgresDriver.UpdateVersion, hc, execInsert, hl,
            postgresDriver.isDup]] at happ
        exact Bool.false_ne_true happ
      | none =>
        rw [show postgresDriver.UpdateVersion none db h r c n
            = ⟨((h, r), n) :: db, true, none⟩ from by
          simp [postgresDriver.UpdateVersion, hc, execInsert, hl,
            postgresDriver.isDup]]
        simp [postgresDriver.QueryVersion, occLookup]
    · have hd : (postgresDriver.UpdateVersion none db h r c n).db
          = (execUpdate db h r c n).1 := by
        simp [postgresDriver.UpdateVersion, hc, hn0]
      have ha : (postgresDriver.UpdateVersion none db h r c n).applied
          = ((execUpdate db h r c n).2 != 0) := by
        simp [postgresDriver.UpdateVersion, hc, hn0]
      rw [ha, execUpdate_count db h r c n hpk] at happ
      by_cases hl : occLookup db h r = some c
      · have hlook := execUpdate_lookup db h r c n hpk
        rw [if_pos hl] at hlook
        rw [hd]
        simp [postgresDriver.QueryVersion, hlook]
      · rw [if_neg hl] at happ
        simp at happ
  · intro db h r hl
    simp [postgresDriver.QueryVersion, hl]

/-- C6 witness: a first write followed by a query, and a query of an
absent record. -/
theorem c6_round_trip_witness :
    postgresDriver.QueryVersion
      (postgresDriver.UpdateVersion none [] "h" [0] [] [1]).db "h" [0] =
      ([1], none) ∧
    postgresDriver.QueryVersion [] "h" [0] = ([], none) :=
  ⟨c6_round_trip.1 [] "h" [0] [] [1] (by decide) (by decide) (by decide),
   c6_round_trip.2 [] "h" [0] rfl⟩

/-- C7: a stored version changes only through the compare-and-swap
condition: whenever an UpdateVersion call changes the version observed
under any key, that key is the call's own (handler, resource) pair and
either the previous stored version equalled the supplied current token,
or current was the empty token and no record existed. -/
theorem c7_conditional_mutation (fault : Option GoErr) (db : Db)
    (h : String) (r c n : Version) (h2 : String) (r2 : Version)
    (hch : occLookup (postgresDriver.UpdateVersion fault db h r c n).db h2 r2 ≠
      occLookup db h2 r2) :
    (h2, r2) = (h, r) ∧
    (occLookup db h r = some c ∨ (c = [] ∧ occLookup db h r = none)) := by
  cases fault with
  | some e =>
    exfalso
    apply hch
    by_cases hc : c.length = 0
    · have hdb : (postgresDriver.UpdateVersion (some e) db h r c n).db = db := by
        by_cases hdup : postgresDriver.isDup (some e) = true
        · simp [postgresDriver.UpdateVersion, hc, hdup]
        · simp [postgresDriver.UpdateVersion, hc, hdup]
      rw [hdb]
    · simp [postgresDriver.UpdateVersion, hc]
  | none =>
    by_cases hc : c.length = 0
    · have hcnil : c = [] := List.length_eq_zero.mp hc
      subst hcnil
      cases hl : occLookup db h r with
      | some v =>
        exfalso
        apply hch
        simp [postgresDriver.UpdateVersion, execInsert, hl, postgresDriver.isDup]
      | none =>
        have hdb : (postgresDriver.UpdateVersion none db h r [] n).db
            = ((h, r), n) :: db := by
          simp [postgresDriver.UpdateVersion, execInsert, hl, postgresDriver.isDup]
        rw [hdb] at hch
        by_cases hk : (h2, r2) = (h, r)
        · exact ⟨hk, Or.inr ⟨rfl, rfl⟩⟩
        · exfalso
          apply hch
          have hk2 : ¬((h, r) : String × Version) = (h2, r2) := fun hh => hk hh.symm
          simp [occLookup, hk2]
    · by_cases hk : (h2, r2) = (h, r)
      · have hk12 : h2 = h ∧ r2 = r := by rwa [Prod.mk.injEq] at hk
        obtain ⟨he1, he2⟩ := hk12
        refine ⟨hk, Or.inl ?_⟩
        by_contra hl
        apply hch
        rw [he1, he2]
        by_cases hn : n.length = 0
        · have hd : (postgresDriver.UpdateVersion none db h r c n).db
              = (execDelete db h r c).1 := by
            simp [postgresDriver.UpdateVersion, hc, hn]
          rw [hd]
          exact execDelete_lookup_ne db h r c hl
        · have hd : (postgresDriver.UpdateVersion none db h r c n).db
              = (execUpdate db h r c n).1 := by
            simp [postgresDriver.UpdateVersion, hc, hn]
          rw [hd]
          exact execUpdate_lookup_ne db h r c n hl
      · exfalso
        apply hch
        by_cases hn : n.length = 0
        · have hd : (postgresDriver.UpdateVersion none db h r c n).db
              = (execDelete db h r c).1 := by
            simp [postgresDriver.UpdateVersion, hc, hn]
          rw [hd]
          exact execDelete_frame db h r c h2 r2 hk
        · have hd : (postgresDriver.UpdateVersion none db h r c n).db
              = (execUpdate db h r c n).1 := by
            simp [postgresDriver.UpdateVersion, hc, hn]
          rw [hd]
          exact execUpdate_frame db h r c n h2 r2 hk

/-- C7 witness: the first insert changes the stored version and the
conclusion identifies the touched key and the empty-current condition. -/
theorem c7_conditional_mutation_witness :
    (("h", ([0] : Version)) = ("h", [0]) ∧
      (occLookup [] "h" [0] = some [] ∨
        (([] : Version) = [] ∧ occLookup ([] : Db) "h" [0] = none))) :=
  c7_conditional_mutation none [] "h" [0] [] [1] "h" [0] (by decide)

/-- C8: when the INSERT of an empty-current CompareAndSwap fails with an
error that isDup does not classify as a unique violation, UpdateVersion
propagates that error to the caller instead of reporting it as a
conflict. -/
theorem c8_unclassified_insert_error_propagated (db : Db) (h : String)
    (r n : Version) (e : GoErr)
    (hnd : postgresDriver.isDup (some e) = false) :
    postgresDriver.UpdateVersion (some e) db h r [] n = ⟨db, true, some e⟩ := by
  simp [postgresDriver.UpdateVersion, hnd]

/-- C8 witness: a transport fault during the INSERT is propagated. -/
theorem c8_unclassified_insert_error_propagated_witness :
    postgresDriver.UpdateVersion (some (GoErr.other "io")) [] "h" [0] [] [1] =
      ⟨[], true, some (GoErr.other "io")⟩ :=
  c8_unclassified_insert_error_propagated [] "h" [0] [1] (GoErr.other "io")
    (by decide)

/-- C9: an empty-current CompareAndSwap whose INSERT fails with an error
that is not a unique violation returns applied = true together with that
non-nil error, so the applied flag can be true even when an error is
returned. -/
theorem c9_applied_true_with_error (db : Db) (h : String) (r n : Version)
    (e : GoErr) (hnd : postgresDriver.isDup (some e) = false) :
    (postgresDriver.UpdateVersion (some e) db h r [] n).applied = true ∧
    (postgresDriver.UpdateVersion (some e) db h r [] n).err = some e := by
  simp [postgresDriver.UpdateVersion, hnd]

/-- C9 witness: a pq error that is not a unique violation. -/
theorem c9_applied_true_with_error_witness :
    (postgresDriver.UpdateVersion (some (GoErr.pqErr "40001"))
        [] "h" [0] [] [1]).applied = true ∧
    (postgresDriver.UpdateVersion (some (GoErr.pqErr "40001"))
        [] "h" [0] [] [1]).err = some (GoErr.pqErr "40001") :=
  c9_applied_true_with_error [] "h" [0] [1] (GoErr.pqErr "40001") (by decide)

end sqlprojection

namespace dynamoprojection

/-- C10: each item-level decorator option registers its callback only on
the ResourceRepositoryOption path: its HandlerOption path
(applyOptionToAdaptor) leaves every field of the decorators struct
unchanged, applyResourceRepositoryOption stores exactly the decorator in
its field, and an options value whose adaptor function field is nil is a
no-op on the decorators struct. -/
theorem c10_adaptor_path_is_noop (α β γ δ ε ζ : Type) :
    (∀ (dec : α) (d : decorators α β γ δ ε ζ),
      (@WithDecorateGetItem α β γ δ ε ζ dec).applyOptionToAdaptor d = d ∧
      (@WithDecorateGetItem α β γ δ ε ζ dec).applyResourceRepositoryOption d =
        { d with decorateGetItem := some dec }) ∧
    (∀ (dec : β) (d : decorators α β γ δ ε ζ),
      (@WithDecoratePutItem α β γ δ ε ζ dec).applyOptionToAdaptor d = d ∧
      (@WithDecoratePutItem α β γ δ ε ζ dec).applyResourceRepositoryOption d =
        { d with decoratePutItem := some dec }) ∧
    (∀ (dec : γ) (d : decorators α β γ δ ε ζ),
      (@WithDecorateDeleteItem α β γ δ ε ζ dec).applyOptionToAdaptor d = d ∧
      (@WithDecorateDeleteItem α β γ δ ε ζ dec).applyResourceRepositoryOption d =
        { d with decorateDeleteItem := some dec }) ∧
    (∀ (dec : δ) (d : decorators α β γ δ ε ζ),
      (@WithDecorateTransactWriteItems α β γ δ ε ζ dec).applyOptionToAdaptor d = d ∧
      (@WithDecorateTransactWriteItems α β γ δ ε ζ dec).applyResourceRepositoryOption d =
        { d with decorateTransactWriteItems := some dec }) ∧
    (∀ o : options α β γ δ ε ζ, o.applyOptionToAdaptorFunc = none →
      ∀ d : decorators α β γ δ ε ζ, o.applyOptionToAdaptor d = d) := by
  refine ⟨fun dec d => ⟨rfl, rfl⟩, fun dec d => ⟨rfl, rfl⟩,
    fun dec d => ⟨rfl, rfl⟩, fun dec d => ⟨rfl, rfl⟩, fun o ho d => ?_⟩
  simp [options.applyOptionToAdaptor, ho]

/-- C10 witness: the GetItem option's adaptor path and a nil adaptor
function field, both evaluated on a concrete decorators value. -/
theorem c10_adaptor_path_is_noop_witness :
    (@WithDecorateGetItem Nat Nat Nat Nat Nat Nat 7).applyOptionToAdaptor
      emptyDecorators = emptyDecorators ∧
    nilAdaptorOptions.applyOptionToAdaptor emptyDecorators = emptyDecorators :=
  ⟨((c10_adaptor_path_is_noop Nat Nat Nat Nat Nat Nat).1 7 emptyDecorators).1,
   (c10_adaptor_path_is_noop Nat Nat Nat Nat Nat Nat).2.2.2.2
     nilAdaptorOptions rfl emptyDecorators⟩

end dynamoprojection
